import Mathlib

/-
Verification of the independence-checking core of the serializer
(src/src/serializer/functions.js): speculative effects capture for
optimized-function candidates, nested-candidate discovery, and the
all-pairs write-conflict check.  Function values are identified by
natural numbers; property bindings by (object, property) pairs; the
abstract interpreter substrate is represented by the data each candidate's
evaluation produces (its write set, created objects, registrations and
replay accesses).
-/

namespace PrepackFunctions

/-! ### Completions and the abrupt-result guard

`checkThatFunctionsAreIndependent` tests each candidate's captured result
with the JavaScript expression

  `e1.result instanceof Completion && !e1.result instanceof PossiblyNormalCompletion`

In JavaScript `!` binds tighter than `instanceof`, so the right conjunct
is `(!e1.result) instanceof PossiblyNormalCompletion`.  We model just
enough of JavaScript's value semantics to evaluate that expression: a
result is either a plain value (not a `Completion` instance), a
`PossiblyNormalCompletion` (a `Completion` subclass), or a definite
abrupt completion (a `Completion` that is not `PossiblyNormalCompletion`). -/

inductive CompletionKind where
  | normalValue
  | possiblyNormal
  | abrupt
deriving DecidableEq, Repr

/-- A JavaScript value as far as the guard expression needs: the result
object, or a boolean produced by `!`. -/
inductive JSVal where
  | objVal (k : CompletionKind)
  | boolVal (b : Bool)
deriving DecidableEq, Repr

/-- JavaScript truthiness: objects are truthy, booleans are themselves. -/
def truthy : JSVal → Bool
  | .objVal _ => true
  | .boolVal b => b

/-- JavaScript `!v`. -/
def jsNot (v : JSVal) : JSVal := .boolVal (!truthy v)

/-- `v instanceof Completion`: true for completion objects
(`PossiblyNormalCompletion` extends `Completion`), false for plain values
and for booleans. -/
def instOfCompletion : JSVal → Bool
  | .objVal .possiblyNormal => true
  | .objVal .abrupt => true
  | .objVal .normalValue => false
  | .boolVal _ => false

/-- `v instanceof PossiblyNormalCompletion`. -/
def instOfPossiblyNormal : JSVal → Bool
  | .objVal .possiblyNormal => true
  | _ => false

/-- The guard of functions.js line 324 as JavaScript parses it:
`(e1.result instanceof Completion) && ((!e1.result) instanceof
PossiblyNormalCompletion)`. -/
def abruptResultGuard (k : CompletionKind) : Bool :=
  instOfCompletion (.objVal k) && instOfPossiblyNormal (jsNot (.objVal k))

/-- The guard the surrounding diagnostic text intends: the result is a
`Completion` and not a `PossiblyNormalCompletion`, i.e. a definite abrupt
completion. -/
def intendedAbruptGuard (k : CompletionKind) : Bool :=
  instOfCompletion (.objVal k) && !instOfPossiblyNormal (.objVal k)

/-! ### Association-list maps

`Realm.optimizedFunctions`, `Functions.writeEffects` and the `conflicts`
map are JavaScript `Map`s: insertion-ordered, unique keys, `set` replaces
an existing key in place and appends a fresh key. -/

/-- JavaScript `Map.get`. -/
def lookupKey {α : Type} : List (Nat × α) → Nat → Option α
  | [], _ => none
  | (k', v) :: rest, k => if k' = k then some v else lookupKey rest k

/-- JavaScript `Map.has`. -/
def hasKey {α : Type} (m : List (Nat × α)) (k : Nat) : Bool :=
  (lookupKey m k).isSome

/-- JavaScript `Map.set`: replace in place when the key is present,
append otherwise. -/
def mapSet {α : Type} : List (Nat × α) → Nat → α → List (Nat × α)
  | [], k, v => [(k, v)]
  | (k', v') :: rest, k, v =>
      if k' = k then (k, v) :: rest else (k', v') :: mapSet rest k v

/-- `for (const [k, v] of old) m.set(k, v)` — the merge loop at the end of
`_withEmptyOptimizedFunctionList`. -/
def mapSetAll {α : Type} (m old : List (Nat × α)) : List (Nat × α) :=
  old.foldl (fun acc kv => mapSet acc kv.1 kv.2) m

/-! ### Diagnostics -/

inductive DiagCode where
  | pp1002  -- additional function may terminate abruptly
  | pp1003  -- property access conflicts with write in optimized function
  | pp1005  -- non-identifier args to additional functions unsupported
  | pp1007  -- side-effect warning during pure evaluation
  | pp1008  -- __optimize called in failed speculative context
  | pp1009  -- function with two parent optimized functions
deriving DecidableEq, Repr

inductive Severity where
  | warning
  | recoverableError
  | fatalError
deriving DecidableEq, Repr

/-- The severity each `CompilerDiagnostic` of functions.js is constructed
with. -/
def diagSeverity : DiagCode → Severity
  | .pp1002 => .fatalError
  | .pp1003 => .fatalError
  | .pp1005 => .fatalError
  | .pp1007 => .warning
  | .pp1008 => .recoverableError
  | .pp1009 => .fatalError

/-- A `CompilerDiagnostic` as the conflict checker builds them: a code, the
offending function's display name, and an optional source location
(locations are abstracted to numbers). -/
structure CompilerDiagnostic where
  code : DiagCode
  fname : String
  loc : Option Nat
deriving DecidableEq, Repr

/-- What `realm.handleError` answers: `"Recover"` or anything else. -/
inductive HandlerResponse where
  | recover
  | fail
deriving DecidableEq, Repr

/-- The realm's installed error handler, an external collaborator: its
answer per diagnostic code. -/
def Handler : Type := DiagCode → HandlerResponse

/-! ### Property bindings, effects records and replay accesses -/

/-- A `PropertyBinding` identity: the object and the property it lives on
(both abstracted to numbers). -/
structure Binding where
  obj : Nat
  prop : Nat
deriving DecidableEq, Repr

/-- One entry of the `writeEffects` table, the fields of the captured
`AdditionalFunctionEffects` the conflict checker reads: the objects the
candidate's evaluation created, its modified property bindings (write
set), the completion class of its result, and
`parentAdditionalFunction`. -/
structure EffectsRecord where
  createdObjects : List Nat
  modifiedProperties : List Binding
  resultKind : CompletionKind
  parentAdditionalFunction : Option Nat
deriving DecidableEq, Repr

/-- What the realm's interception hooks see while a candidate is replayed:
a property access (`realm.reportPropertyAccess`, whose location may be
absent) or an own-properties enumeration
(`realm.reportObjectGetOwnProperties`, where the code asserts the location
is present). -/
inductive AccessEvent where
  | propAccess (b : Binding) (loc : Option Nat)
  | getOwnProps (obj : Nat) (loc : Nat)
deriving DecidableEq, Repr

/-- `reportConflict` of `reportWriteConflicts`: build the PP1003
diagnostic and `conflicts.set(location, error)`.  It is only called under
a `!conflicts.has(location)` guard, so the set appends. -/
def reportConflict (fname : String) (conflicts : List (Nat × CompilerDiagnostic))
    (l : Nat) : List (Nat × CompilerDiagnostic) :=
  conflicts ++ [(l, { code := .pp1003, fname := fname, loc := some l })]

/-- `writtenObjects`: the objects of every binding in the writer's
modified-properties set. -/
def writtenObjectsOf (pbs : List Binding) : List Nat :=
  pbs.map Binding.obj

/-- One interception during replay, exactly as the two hooks installed by
`reportWriteConflicts` handle it: an enumeration of an object some write
touched, or an access to a binding in the writer's write set, records one
diagnostic keyed by the current location unless that location already has
one; accesses to bindings refused for serialization and accesses with no
current location are ignored. -/
def reportConflictStep (fname : String) (pbs : List Binding)
    (refuse : Binding → Bool) (conflicts : List (Nat × CompilerDiagnostic))
    (ev : AccessEvent) : List (Nat × CompilerDiagnostic) :=
  match ev with
  | .getOwnProps ob l =>
      if (writtenObjectsOf pbs).contains ob && !hasKey conflicts l then
        reportConflict fname conflicts l
      else conflicts
  | .propAccess b loc =>
      if refuse b then conflicts
      else
        match loc with
        | none => conflicts
        | some l =>
            if pbs.contains b && !hasKey conflicts l then
              reportConflict fname conflicts l
            else conflicts

/-- `reportWriteConflicts(fname, conflicts, pbs, call2)`, reduced to its
observable core: every access the replayed evaluation performs while the
hooks are installed flows through `reportConflictStep`. -/
def reportWriteConflicts (fname : String)
    (conflicts : List (Nat × CompilerDiagnostic)) (pbs : List Binding)
    (refuse : Binding → Bool) (evs : List AccessEvent) :
    List (Nat × CompilerDiagnostic) :=
  evs.foldl (reportConflictStep fname pbs refuse) conflicts

/-! ### The pairwise verification of `checkThatFunctionsAreIndependent`

The loop at functions.js lines 315-355.  The substrate calls
(`evaluateForEffectsInGlobalEnv` of the replayed call and
`withEffectsAppliedInGlobalEnv`) are not part of this file's source, so
the replay of a candidate is represented by the access events it performs
against the untouched global baseline, and applying a baseline filters
the accesses the hooks get to see (see `underBaseline`). -/

/-- Modelled from the spec: `realm.withEffectsAppliedInGlobalEnv` and the
realm's access reporting (src/realm.js, not part of the inspected
source).  Per the specification, replay of a candidate under a parent's
committed effects must not surface the parent's own prior writes as
foreign accesses ("so writes a parent legitimately makes before invoking
its own nested candidate are not conflicts"), and conflict detection is
driven by every property read the replay performs otherwise.  A property
access resolved by the applied baseline is therefore not delivered to the
installed hooks; enumerations are delivered unchanged. -/
def underBaseline (applied : List Binding) (evs : List AccessEvent) :
    List AccessEvent :=
  evs.filter fun ev =>
    match ev with
    | .propAccess b _ => !applied.contains b
    | .getOwnProps _ _ => true

/-- The inputs of the verification phase: the `additionalFunctions` set in
insertion order, the finalized `writeEffects` table, the display-name
resolver (`functionExpressions` / `intrinsicName` fallback), the
substrate's `refuseSerializationOnPropertyBinding` predicate, and each
candidate's replay accesses against the untouched baseline. -/
structure VerifyInput where
  fns : List Nat
  writeEffects : Nat → EffectsRecord
  functionName : Nat → String
  refuse : Binding → Bool
  events : Nat → List AccessEvent

/-- The baseline candidate `fun2` is replayed under: its parent's
committed effects when `parentAdditionalFunction` is set, the untouched
global baseline otherwise. -/
def pairBaseline (inp : VerifyInput) (fun2 : Nat) : List Binding :=
  match (inp.writeEffects fun2).parentAdditionalFunction with
  | some p => (inp.writeEffects p).modifiedProperties
  | none => []

/-- Observable steps of the verification phase, in order: the per-candidate
abrupt-result test, the replay of `b` against `a`'s write set, a
diagnostic handed to `realm.handleError`, and a thrown `FatalError`. -/
inductive VEvent where
  | abruptCheckEv (f : Nat)
  | pairCheckEv (a b : Nat)
  | reportEv (d : CompilerDiagnostic)
  | fatalEv
deriving DecidableEq, Repr

/-- The PP1002 "may terminate abruptly" diagnostic. -/
def pp1002Diag (fname : String) : CompilerDiagnostic :=
  { code := .pp1002, fname := fname, loc := none }

/-- The inner `for (const fun2 of additionalFunctions)` loop: skip
`fun1 === fun2`, otherwise replay `fun2` under its baseline against
`fun1`'s write set. -/
def innerLoop (inp : VerifyInput) (fun1 : Nat) :
    List Nat → List (Nat × CompilerDiagnostic) →
    List (Nat × CompilerDiagnostic) × List VEvent
  | [], c => (c, [])
  | fun2 :: rest, c =>
      if fun1 = fun2 then innerLoop inp fun1 rest c
      else
        let evs := underBaseline (pairBaseline inp fun2) (inp.events fun2)
        let c1 := reportWriteConflicts (inp.functionName fun1) c
          (inp.writeEffects fun1).modifiedProperties inp.refuse evs
        match innerLoop inp fun1 rest c1 with
        | (c2, tr) => (c2, .pairCheckEv fun1 fun2 :: tr)

/-- The outer `for (const fun1 of additionalFunctions)` loop: the
abrupt-result guard first (report PP1002 and throw when it fires), then
the inner loop.  The third component records whether a `FatalError` was
thrown inside the loop. -/
def outerLoop (inp : VerifyInput) :
    List Nat → List (Nat × CompilerDiagnostic) →
    List (Nat × CompilerDiagnostic) × List VEvent × Bool
  | [], c => (c, [], false)
  | fun1 :: rest, c =>
      if abruptResultGuard (inp.writeEffects fun1).resultKind then
        (c, [.abruptCheckEv fun1,
             .reportEv (pp1002Diag (inp.functionName fun1)), .fatalEv], true)
      else
        match innerLoop inp fun1 inp.fns c with
        | (c1, tr1) =>
            match outerLoop inp rest c1 with
            | (c2, tr2, ab) => (c2, .abruptCheckEv fun1 :: (tr1 ++ tr2), ab)

/-- What the verification phase leaves behind: the accumulated conflicts
map, the event trace, and whether it aborted with a `FatalError`. -/
structure VerifyOutcome where
  conflicts : List (Nat × CompilerDiagnostic)
  trace : List VEvent
  aborted : Bool
deriving Repr

/-- The verification half of `checkThatFunctionsAreIndependent` (lines
315-355): run the pairwise sweep, then — only after every pair — report
every accumulated conflict diagnostic and throw a single `FatalError` when
the map is non-empty. -/
def checkThatFunctionsAreIndependent (inp : VerifyInput) : VerifyOutcome :=
  match outerLoop inp inp.fns [] with
  | (c, tr, true) => { conflicts := c, trace := tr, aborted := true }
  | (c, tr, false) =>
      if c.isEmpty then { conflicts := c, trace := tr, aborted := false }
      else
        { conflicts := c
          trace := tr ++ c.map (fun p => VEvent.reportEv p.2) ++ [.fatalEv]
          aborted := true }

/-- The diagnostics passed to `realm.handleError` during verification, in
order. -/
def reportedDiags (tr : List VEvent) : List CompilerDiagnostic :=
  tr.filterMap fun ev =>
    match ev with
    | .reportEv d => some d
    | _ => none

/-! ### Argument synthesis (`_callOfFunction`) -/

/-- A formal parameter node: a plain identifier, or any other pattern
(destructuring or rest), which `t.isIdentifier` rejects. -/
inductive Param where
  | ident (name : String)
  | patternParam
deriving DecidableEq, Repr

/-- The parameter loop of `_callOfFunction`: one abstract argument per
identifier parameter; the first non-identifier parameter reports PP1005
and throws `FatalError` (unconditionally — the handler's answer is not
consulted). -/
def synthesizeArgs : List Param → Except DiagCode (List String)
  | [] => .ok []
  | .ident n :: rest =>
      match synthesizeArgs rest with
      | .ok args => .ok (n :: args)
      | .error e => .error e
  | .patternParam :: _ => .error .pp1005

/-- What one candidate's evaluation contributes, as the substrate reports
it: its formal parameters, the value of `funcValue.getLength()` (the
ECMAScript `length` — parameters before the first rest or defaulted
parameter, so e.g. a rest-only parameter list has length 0), whether the
function value `isValid()` at discovery time, the objects its speculative
evaluation creates, the candidates its evaluation registers for
optimization (visible once its effects are applied), its write set and
its result's completion class. -/
structure FuncSpec where
  params : List Param
  length : Nat
  valid : Bool
  createdObjects : List Nat
  registers : List Nat
  writes : List Binding
  resultKind : CompletionKind

/-- The substrate's answer for every function value. -/
def World : Type := Nat → FuncSpec

/-- `_callOfFunction`: the argument loop runs only when
`numArgs && numArgs > 0 && params`; with `getLength()` equal to zero it is
skipped entirely and the call is synthesized with no arguments. -/
def callOfFunction (f : FuncSpec) : Except DiagCode (List String) :=
  if f.length ≠ 0 then synthesizeArgs f.params else .ok []

/-! ### Capture and discovery (`recordWriteEffectsForOptimizedFunctionAndNestedFunctions`) -/

/-- Observable steps of the capture phase: arguments synthesized, a
diagnostic handed to `realm.handleError`, the speculative `evaluatePure`
evaluation of a candidate, an effects record stored into `writeEffects`,
and a nested candidate surfacing while its parent's effects are
applied. -/
inductive REvent where
  | argSynthEv (f : Nat)
  | diagEv (code : DiagCode) (f : Nat)
  | captureEv (f : Nat)
  | storeEv (f : Nat) (parent : Option Nat)
  | revealEv (parent : Nat) (f : Nat)
deriving DecidableEq, Repr

/-- How the capture phase can end prematurely: a thrown `FatalError`, or
the recursion bound of this model running out. -/
inductive TravErr where
  | fatalErr
  | outOfFuel
deriving DecidableEq, Repr

/-- The mutable state the capture phase threads: the `writeEffects` table
(insertion-ordered) and the event trace. -/
structure TravState where
  writeEffects : List (Nat × EffectsRecord)
  trace : List REvent
deriving Repr

/-- `getDeclaringAdditionalFunction`: the first recorded candidate whose
captured `createdObjects` contains the function value, if any. -/
def getDeclaringAdditionalFunction :
    List (Nat × EffectsRecord) → Nat → Option Nat
  | [], _ => none
  | (g, r) :: rest, f =>
      if r.createdObjects.contains f then some g
      else getDeclaringAdditionalFunction rest f

/-- `_generateOptimizedFunctionsFromRealm`: walk the realm's registered
candidates; one whose function value is no longer valid (registered in a
discarded speculative context) is reported as PP1008 and never collected,
and unless the handler answers `"Recover"` a `FatalError` is thrown on
the spot. -/
def generateOptimizedFunctionsFromRealm (world : World) (handler : Handler) :
    List Nat → List Nat × List REvent × Option TravErr
  | [] => ([], [], none)
  | f :: rest =>
      if (world f).valid then
        match generateOptimizedFunctionsFromRealm world handler rest with
        | (l, evs, e) => (f :: l, evs, e)
      else
        match handler .pp1008 with
        | .recover =>
            match generateOptimizedFunctionsFromRealm world handler rest with
            | (l, evs, e) => (l, .diagEv .pp1008 f :: evs, e)
        | .fail => ([], [.diagEv .pp1008 f], some .fatalErr)

/-- The record stored for a candidate: its captured effects, with
`parentAdditionalFunction` looked up in the table as it stands when
`createAdditionalEffects` runs — before the candidate's own entry is
set. -/
def mkRecord (world : World) (we : List (Nat × EffectsRecord)) (f : Nat) :
    EffectsRecord :=
  { createdObjects := (world f).createdObjects
    modifiedProperties := (world f).writes
    resultKind := (world f).resultKind
    parentAdditionalFunction := getDeclaringAdditionalFunction we f }

/-- The reveal event emitted when a task was discovered during a parent's
commit (none for a top-level candidate). -/
def revealEvents (ctx : Option Nat) (f : Nat) : List REvent :=
  match ctx with
  | some p => [.revealEv p f]
  | none => []

/-- The depth-first traversal of
`recordWriteEffectsForOptimizedFunctionAndNestedFunctions` together with
the driver's `while` loop, as a worklist of `(discovering parent, value)`
tasks (nested candidates are pushed in front, preserving the recursion's
depth-first order).  For each task, in source order: `_callOfFunction`
(PP1005 aborts before any evaluation), the `evaluatePure` capture,
`createAdditionalEffects` with the declaring-function lookup, the
double-optimization check (PP1009; aborts unless the handler recovers,
and notably runs after the capture), the `writeEffects.set`, and the
nested-candidate discovery under the applied effects.  `fuel` bounds the
recursion depth of this model only. -/
def recordLoop (world : World) (handler : Handler) :
    Nat → TravState → List (Option Nat × Nat) → TravState × Option TravErr
  | 0, st, _ => (st, some .outOfFuel)
  | _ + 1, st, [] => (st, none)
  | fuel + 1, st, (ctx, f) :: rest =>
      let st0 : TravState :=
        { st with trace := st.trace ++ revealEvents ctx f }
      match callOfFunction (world f) with
      | .error c =>
          ({ st0 with trace := st0.trace ++ [.diagEv c f] }, some .fatalErr)
      | .ok _ =>
          let st1 : TravState :=
            { st0 with trace := st0.trace ++ [.argSynthEv f, .captureEv f] }
          let r := mkRecord world st1.writeEffects f
          let dup := hasKey st1.writeEffects f
          let st2 : TravState :=
            if dup then { st1 with trace := st1.trace ++ [.diagEv .pp1009 f] }
            else st1
          if dup && (handler .pp1009 == .fail) then (st2, some .fatalErr)
          else
            let st3 : TravState :=
              { st2 with
                writeEffects := mapSet st2.writeEffects f r
                trace := st2.trace ++ [.storeEv f r.parentAdditionalFunction] }
            match generateOptimizedFunctionsFromRealm world handler
                (world f).registers with
            | (nested, gevs, gerr) =>
                let st4 : TravState := { st3 with trace := st3.trace ++ gevs }
                match gerr with
                | some e => (st4, some e)
                | none =>
                    recordLoop world handler fuel st4
                      (nested.map (fun g => (some f, g)) ++ rest)

/-- The capture phase of `checkThatFunctionsAreIndependent` (lines
236-312): collect the initially registered candidates (validity-filtered),
then process them to exhaustion, discovering nested candidates
depth-first. -/
def runCapturePhase (world : World) (handler : Handler) (fuel : Nat)
    (tops : List Nat) : TravState × Option TravErr :=
  match generateOptimizedFunctionsFromRealm world handler tops with
  | (initial, evs, gerr) =>
      match gerr with
      | some e => ({ writeEffects := [], trace := evs }, some e)
      | none =>
          recordLoop world handler fuel { writeEffects := [], trace := evs }
            (initial.map (fun f => (none, f)))

/-! ### `_withEmptyOptimizedFunctionList`

The wrapper swaps `realm.optimizedFunctions` for an empty map, runs the
callee, and merges the snapshot back — with no try/finally, so the merge
loop is reached only when the callee returns normally.  The callee is
represented by the final `optimizedFunctions` map it leaves behind plus
the error it throws, if any. -/

/-- `_withEmptyOptimizedFunctionList`, lines 221-233: snapshot the
realm's pending-registration map, clear it, run the callee, and on normal
return set every snapshot entry back into whatever map the callee left.
On a thrown error the merge loop is never reached and the realm keeps the
callee's map as it stood at the throw. -/
def withEmptyOptimizedFunctionList
    (optimizedFunctions : List (Nat × Nat))
    (func : List (Nat × Nat) → List (Nat × Nat) × Option TravErr) :
    List (Nat × Nat) × Option TravErr :=
  let old := optimizedFunctions
  let result := func []
  match result.2 with
  | some e => (result.1, some e)
  | none => (mapSetAll result.1 old, none)

/-! ### Hook discipline of `reportWriteConflicts` (lines 381-399) -/

/-- The two interception hooks of the realm, abstracted to tags (the
conflict checker only swaps and restores them; their behavior during the
replay is `reportConflictStep`). -/
structure RealmHooks where
  reportPropertyAccess : Nat
  reportObjectGetOwnProperties : Nat
deriving DecidableEq, Repr

/-- What a replayed evaluation can throw: the compiler's `FatalError`, or
any other exception. -/
inductive ReplayErr where
  | fatalError
  | otherErr
deriving DecidableEq, Repr

/-- Modelled from the spec: `ignoreErrorsIn` (src/utils/errors.js, not
part of the inspected source).  Per the specification, conflict detection
is exhaustive rather than fail-fast, so a fatal error escalated inside
one pair's replay must not abort the sweep: the wrapper swallows the
substrate's `FatalError`; anything else propagates. -/
def ignoreErrorsIn : Option ReplayErr → Option ReplayErr
  | some .fatalError => none
  | e => e

/-- A replayed evaluation as `reportWriteConflicts` observes it: the
accesses delivered to the installed hooks before it finishes or throws,
and what it throws, if anything. -/
structure ReplayRun where
  events : List AccessEvent
  thrown : Option ReplayErr

/-- What `reportWriteConflicts` leaves behind: the updated conflicts map,
the realm's hooks, and the error that escapes to the caller, if any. -/
structure ReplayResult where
  conflicts : List (Nat × CompilerDiagnostic)
  hooks : RealmHooks
  escaped : Option ReplayErr
deriving Repr

/-- `reportWriteConflicts` with its realm-state discipline: save the two
installed hooks, install fresh ones, run the replay inside
`ignoreErrorsIn`, and restore both hooks in the `finally` block — reached
on every exit, throwing or not. -/
def reportWriteConflictsRun (fname : String)
    (conflicts : List (Nat × CompilerDiagnostic)) (pbs : List Binding)
    (refuse : Binding → Bool) (hooks : RealmHooks) (installed : Nat × Nat)
    (run : ReplayRun) : ReplayResult :=
  let oldReportPropertyAccess := hooks.reportPropertyAccess
  let oldReportObjectGetOwnProperties := hooks.reportObjectGetOwnProperties
  let hooksDuring : RealmHooks :=
    { reportPropertyAccess := installed.1
      reportObjectGetOwnProperties := installed.2 }
  let c1 := reportWriteConflicts fname conflicts pbs refuse run.events
  let escaped := ignoreErrorsIn run.thrown
  { conflicts := c1
    hooks :=
      { hooksDuring with
        reportPropertyAccess := oldReportPropertyAccess
        reportObjectGetOwnProperties := oldReportObjectGetOwnProperties }
    escaped := escaped }

/-! ### Concrete instances

Small concrete candidate sets used to evaluate the model at specific
inputs.  Each corresponds to a directly realizable JavaScript program
(noted at each definition). -/

/-- A candidate whose captured result is a definite abrupt completion
(e.g. a body that unconditionally throws) and which writes property 0 of
object 5. -/
def record1 : EffectsRecord :=
  { createdObjects := [], modifiedProperties := [⟨5, 0⟩],
    resultKind := .abrupt, parentAdditionalFunction := none }

/-- A candidate with a normal result and an empty write set. -/
def record2 : EffectsRecord :=
  { createdObjects := [], modifiedProperties := [],
    resultKind := .normalValue, parentAdditionalFunction := none }

/-- Verification input: candidate 1 terminates abruptly and writes
`(5, 0)`; candidate 2 reads that binding at location 9 during replay. -/
def c1Input : VerifyInput :=
  { fns := [1, 2]
    writeEffects := fun f => if f = 1 then record1 else record2
    functionName := fun f => if f = 1 then "F" else "G"
    refuse := fun _ => false
    events := fun f => if f = 2 then [.propAccess ⟨5, 0⟩ (some 9)] else [] }

/-- Verification input: candidate 1 writes `(7, 3)`; candidate 2 reads
that binding three times at the same location 4 (a read in a loop). -/
def c3Input : VerifyInput :=
  { fns := [1, 2]
    writeEffects := fun f =>
      if f = 1 then
        { createdObjects := [], modifiedProperties := [⟨7, 3⟩],
          resultKind := .normalValue, parentAdditionalFunction := none }
      else record2
    functionName := fun f => if f = 1 then "A" else "B"
    refuse := fun _ => false
    events := fun f =>
      if f = 2 then
        [.propAccess ⟨7, 3⟩ (some 4), .propAccess ⟨7, 3⟩ (some 4),
         .propAccess ⟨7, 3⟩ (some 4)]
      else [] }

/-- Verification input for the nested-candidate baseline scenarios:
candidate 1 (the parent) writes `(3, 0)` before invoking its nested
candidate 2; candidate 2's replay reads `(3, 0)` at location 6, and its
`parentAdditionalFunction` is 1. -/
def c2Input : VerifyInput :=
  { fns := [1, 2]
    writeEffects := fun f =>
      if f = 1 then
        { createdObjects := [2], modifiedProperties := [⟨3, 0⟩],
          resultKind := .normalValue, parentAdditionalFunction := none }
      else
        { createdObjects := [], modifiedProperties := [],
          resultKind := .normalValue, parentAdditionalFunction := some 1 }
    functionName := fun f => if f = 1 then "F" else "H"
    refuse := fun _ => false
    events := fun f => if f = 2 then [.propAccess ⟨3, 0⟩ (some 6)] else [] }

/-- The table invariant behind `parentAdditionalFunction`: every recorded
entry carries the created objects its evaluation reported, and its
parent, when set, is itself a recorded key whose evaluation created the
entry's function value. -/
def TableOk (world : World) (we : List (Nat × EffectsRecord)) : Prop :=
  ∀ p ∈ we, p.2.createdObjects = (world p.1).createdObjects ∧
    ∀ P, p.2.parentAdditionalFunction = some P →
      hasKey we P = true ∧ p.1 ∈ (world P).createdObjects

/-- A world in which candidate 0's evaluation registers the pre-existing
function 1 for optimization (`__optimize(g)` on a function defined in
global code) without creating it: 1 is discovered during 0's commit but
is in nobody's `createdObjects`. -/
def world0 : World := fun f =>
  if f = 0 then
    { params := [], length := 0, valid := true, createdObjects := [],
      registers := [1], writes := [], resultKind := .normalValue }
  else
    { params := [], length := 0, valid := true, createdObjects := [],
      registers := [], writes := [], resultKind := .normalValue }

/-- A world in which candidate 0's evaluation creates function 1 and
registers it (`function F() { function h() {}; __optimize(h); }`). -/
def world1 : World := fun f =>
  if f = 0 then
    { params := [], length := 0, valid := true, createdObjects := [1],
      registers := [1], writes := [], resultKind := .normalValue }
  else
    { params := [], length := 0, valid := true, createdObjects := [],
      registers := [], writes := [], resultKind := .normalValue }

/-- A world holding two candidates with non-simple parameters: function 3
declares `function({ a }) { }` (a destructuring parameter, `length` 1);
function 4 declares `function(...r) { }` (rest-only parameter list, whose
ECMAScript `length` is 0). -/
def world2 : World := fun f =>
  if f = 4 then
    { params := [.patternParam], length := 0, valid := true,
      createdObjects := [], registers := [], writes := [],
      resultKind := .normalValue }
  else if f = 3 then
    { params := [.patternParam], length := 1, valid := true,
      createdObjects := [], registers := [], writes := [],
      resultKind := .normalValue }
  else
    { params := [], length := 0, valid := true, createdObjects := [],
      registers := [], writes := [], resultKind := .normalValue }

/-- An error handler that never answers `"Recover"`. -/
def handler0 : Handler := fun _ => .fail

/-- A traversal state in which function 1 already owns an entry of the
`writeEffects` table (it was already recorded through another discovery
route, e.g. as a nested candidate of an earlier top-level candidate). -/
def st0 : TravState := { writeEffects := [(1, record2)], trace := [] }

/-- The empty traversal state. -/
def travInit : TravState := { writeEffects := [], trace := [] }

/-! ## Helper lemmas -/

theorem abruptResultGuard_false (k : CompletionKind) :
    abruptResultGuard k = false := by
  cases k <;> rfl

theorem hasKey_false_not_mem {α : Type} (m : List (Nat × α)) (k : Nat) :
    hasKey m k = false → k ∉ m.map Prod.fst := by
  induction m with
  | nil => intro _; simp
  | cons p rest ih =>
      obtain ⟨k', v⟩ := p
      intro h
      simp only [hasKey, lookupKey] at h
      by_cases hk : k' = k
      · simp [hk] at h
      · simp only [hk, if_false] at h
        simp only [List.map_cons, List.mem_cons]
        rintro (rfl | hmem)
        · exact hk rfl
        · exact ih h hmem

theorem hasKey_of_mem {α : Type} (m : List (Nat × α)) (k : Nat) (v : α) :
    (k, v) ∈ m → hasKey m k = true := by
  induction m with
  | nil => intro h; simp at h
  | cons p rest ih =>
      obtain ⟨k', v'⟩ := p
      intro h
      rcases List.mem_cons.mp h with heq | hmem
      · cases heq
        simp [hasKey, lookupKey]
      · simp only [hasKey, lookupKey]
        by_cases hk : k' = k
        · simp [hk]
        · simpa [hk, hasKey] using ih hmem

theorem lookupKey_mapSet_self {α : Type} (m : List (Nat × α)) (k : Nat) (v : α) :
    lookupKey (mapSet m k v) k = some v := by
  induction m with
  | nil => simp [mapSet, lookupKey]
  | cons p rest ih =>
      obtain ⟨k', v'⟩ := p
      by_cases hk : k' = k
      · simp [mapSet, hk, lookupKey]
      · simp [mapSet, hk, lookupKey, ih]

theorem lookupKey_mapSet_ne {α : Type} (m : List (Nat × α)) {k k' : Nat} (v : α)
    (h : k' ≠ k) : lookupKey (mapSet m k v) k' = lookupKey m k' := by
  induction m with
  | nil => simp [mapSet, lookupKey, Ne.symm h]
  | cons p rest ih =>
      obtain ⟨k0, v0⟩ := p
      by_cases hk : k0 = k
      · subst hk
        simp [mapSet, lookupKey, Ne.symm h]
      · by_cases hk' : k0 = k'
        · simp [mapSet, hk, lookupKey, hk', h]
        · simp [mapSet, hk, lookupKey, hk', ih]

theorem hasKey_mapSet_of {α : Type} {m : List (Nat × α)} {k' : Nat}
    (k : Nat) (v : α) (h : hasKey m k' = true) :
    hasKey (mapSet m k v) k' = true := by
  by_cases hk : k' = k
  · subst hk
    simp [hasKey, lookupKey_mapSet_self]
  · simpa [hasKey, lookupKey_mapSet_ne m v hk] using h

theorem mem_mapSet {α : Type} (m : List (Nat × α)) (k : Nat) (v : α)
    (p : Nat × α) : p ∈ mapSet m k v → p = (k, v) ∨ p ∈ m := by
  induction m with
  | nil => intro h; simpa [mapSet] using h
  | cons q rest ih =>
      obtain ⟨k0, v0⟩ := q
      intro h
      by_cases hk : k0 = k
      · simp only [mapSet, hk, if_true] at h
        rcases List.mem_cons.mp h with heq | hmem
        · exact Or.inl heq
        · exact Or.inr (List.mem_cons.mpr (Or.inr hmem))
      · simp only [mapSet, hk, if_false] at h
        rcases List.mem_cons.mp h with heq | hmem
        · exact Or.inr (List.mem_cons.mpr (Or.inl heq))
        · rcases ih hmem with h1 | h2
          · exact Or.inl h1
          · exact Or.inr (List.mem_cons.mpr (Or.inr h2))

theorem lookupKey_mapSetAll_not_mem {α : Type} (old : List (Nat × α)) (k : Nat) :
    ∀ m : List (Nat × α), k ∉ old.map Prod.fst →
      lookupKey (mapSetAll m old) k = lookupKey m k := by
  induction old with
  | nil => intro m _; rfl
  | cons p rest ih =>
      obtain ⟨k0, v0⟩ := p
      intro m h
      simp only [List.map_cons, List.mem_cons, not_or] at h
      have step : mapSetAll m ((k0, v0) :: rest) = mapSetAll (mapSet m k0 v0) rest := rfl
      rw [step, ih (mapSet m k0 v0) h.2, lookupKey_mapSet_ne m v0 h.1]

theorem lookupKey_mapSetAll_mem {α : Type} (old : List (Nat × α)) (k : Nat)
    (v : α) : ∀ m : List (Nat × α), (old.map Prod.fst).Nodup → (k, v) ∈ old →
      lookupKey (mapSetAll m old) k = some v := by
  induction old with
  | nil => intro m _ h; simp at h
  | cons p rest ih =>
      obtain ⟨k0, v0⟩ := p
      intro m hnd h
      have step : mapSetAll m ((k0, v0) :: rest) = mapSetAll (mapSet m k0 v0) rest := rfl
      simp only [List.map_cons, List.nodup_cons] at hnd
      rcases List.mem_cons.mp h with heq | hmem
      · cases heq
        rw [step, lookupKey_mapSetAll_not_mem rest k (mapSet m k v) hnd.1,
          lookupKey_mapSet_self]
      · rw [step, ih (mapSet m k0 v0) hnd.2 hmem]

theorem reportConflictStep_cases (fname : String) (pbs : List Binding)
    (refuse : Binding → Bool) (c : List (Nat × CompilerDiagnostic))
    (ev : AccessEvent) :
    reportConflictStep fname pbs refuse c ev = c ∨
    ∃ l, hasKey c l = false ∧
      reportConflictStep fname pbs refuse c ev = reportConflict fname c l := by
  cases ev with
  | getOwnProps ob l =>
      simp only [reportConflictStep]
      split
      · next h =>
          right
          refine ⟨l, ?_, rfl⟩
          have h2 := (Bool.and_eq_true _ _).mp h
          simpa using h2.2
      · left; rfl
  | propAccess b loc =>
      simp only [reportConflictStep]
      split
      · left; rfl
      · cases loc with
        | none => left; rfl
        | some l =>
            simp only
            split
            · next h =>
                right
                refine ⟨l, ?_, rfl⟩
                have h2 := (Bool.and_eq_true _ _).mp h
                simpa using h2.2
            · left; rfl

theorem nodupKeys_step {fname : String} {pbs : List Binding}
    {refuse : Binding → Bool} {c : List (Nat × CompilerDiagnostic)}
    (ev : AccessEvent) (hnd : (c.map Prod.fst).Nodup) :
    ((reportConflictStep fname pbs refuse c ev).map Prod.fst).Nodup := by
  rcases reportConflictStep_cases fname pbs refuse c ev with h | ⟨l, hfree, h⟩
  · rw [h]; exact hnd
  · rw [h]
    simp only [reportConflict, List.map_append, List.map_cons, List.map_nil]
    have hnotmem := hasKey_false_not_mem c l hfree
    simp [List.nodup_append, hnd, hnotmem]

theorem step_ne_nil {fname : String} {pbs : List Binding}
    {refuse : Binding → Bool} {c : List (Nat × CompilerDiagnostic)}
    (ev : AccessEvent) (h : c ≠ []) :
    reportConflictStep fname pbs refuse c ev ≠ [] := by
  rcases reportConflictStep_cases fname pbs refuse c ev with heq | ⟨l, _, heq⟩
  · rw [heq]; exact h
  · rw [heq]
    simp [reportConflict]

theorem nodupKeys_fold (fname : String) (pbs : List Binding)
    (refuse : Binding → Bool) :
    ∀ (evs : List AccessEvent) (c : List (Nat × CompilerDiagnostic)),
      (c.map Prod.fst).Nodup →
      ((reportWriteConflicts fname c pbs refuse evs).map Prod.fst).Nodup := by
  intro evs
  induction evs with
  | nil => intro c h; exact h
  | cons ev rest ih =>
      intro c h
      have step : reportWriteConflicts fname c pbs refuse (ev :: rest) =
          reportWriteConflicts fname (reportConflictStep fname pbs refuse c ev)
            pbs refuse rest := rfl
      rw [step]
      exact ih _ (nodupKeys_step ev h)

theorem fold_ne_nil (fname : String) (pbs : List Binding)
    (refuse : Binding → Bool) :
    ∀ (evs : List AccessEvent) (c : List (Nat × CompilerDiagnostic)),
      c ≠ [] → reportWriteConflicts fname c pbs refuse evs ≠ [] := by
  intro evs
  induction evs with
  | nil => intro c h; exact h
  | cons ev rest ih =>
      intro c h
      have step : reportWriteConflicts fname c pbs refuse (ev :: rest) =
          reportWriteConflicts fname (reportConflictStep fname pbs refuse c ev)
            pbs refuse rest := rfl
      rw [step]
      exact ih _ (step_ne_nil ev h)

theorem nodupKeys_inner (inp : VerifyInput) (fun1 : Nat) :
    ∀ (l : List Nat) (c : List (Nat × CompilerDiagnostic)),
      (c.map Prod.fst).Nodup → ((innerLoop inp fun1 l c).1.map Prod.fst).Nodup := by
  intro l
  induction l with
  | nil => intro c h; exact h
  | cons fun2 rest ih =>
      intro c h
      by_cases heq : fun1 = fun2
      · simpa [innerLoop, heq] using ih c h
      · simp only [innerLoop, heq, if_false]
        have h1 := nodupKeys_fold (inp.functionName fun1)
          (inp.writeEffects fun1).modifiedProperties inp.refuse
          (underBaseline (pairBaseline inp fun2) (inp.events fun2)) c h
        have := ih _ h1
        rcases hrec : innerLoop inp fun1 rest
            (reportWriteConflicts (inp.functionName fun1) c
              (inp.writeEffects fun1).modifiedProperties inp.refuse
              (underBaseline (pairBaseline inp fun2) (inp.events fun2))) with ⟨c2, tr⟩
        rw [hrec] at this
        simpa using this

theorem inner_ne_nil (inp : VerifyInput) (fun1 : Nat) :
    ∀ (l : List Nat) (c : List (Nat × CompilerDiagnostic)),
      c ≠ [] → (innerLoop inp fun1 l c).1 ≠ [] := by
  intro l
  induction l with
  | nil => intro c h; exact h
  | cons fun2 rest ih =>
      intro c h
      by_cases heq : fun1 = fun2
      · simpa [innerLoop, heq] using ih c h
      · simp only [innerLoop, heq, if_false]
        have h1 := fold_ne_nil (inp.functionName fun1)
          (inp.writeEffects fun1).modifiedProperties inp.refuse
          (underBaseline (pairBaseline inp fun2) (inp.events fun2)) c h
        have := ih _ h1
        rcases hrec : innerLoop inp fun1 rest
            (reportWriteConflicts (inp.functionName fun1) c
              (inp.writeEffects fun1).modifiedProperties inp.refuse
              (underBaseline (pairBaseline inp fun2) (inp.events fun2))) with ⟨c2, tr⟩
        rw [hrec] at this
        simpa using this

theorem innerLoop_cons_skip (inp : VerifyInput) (fun1 : Nat) (rest : List Nat)
    (c : List (Nat × CompilerDiagnostic)) :
    innerLoop inp fun1 (fun1 :: rest) c = innerLoop inp fun1 rest c := by
  simp [innerLoop]

theorem innerLoop_cons_ne (inp : VerifyInput) {fun1 fun2 : Nat}
    (rest : List Nat) (c : List (Nat × CompilerDiagnostic))
    (heq : fun1 ≠ fun2) :
    innerLoop inp fun1 (fun2 :: rest) c =
      ((innerLoop inp fun1 rest
          (reportWriteConflicts (inp.functionName fun1) c
            (inp.writeEffects fun1).modifiedProperties inp.refuse
            (underBaseline (pairBaseline inp fun2) (inp.events fun2)))).1,
        VEvent.pairCheckEv fun1 fun2 ::
          (innerLoop inp fun1 rest
            (reportWriteConflicts (inp.functionName fun1) c
              (inp.writeEffects fun1).modifiedProperties inp.refuse
              (underBaseline (pairBaseline inp fun2) (inp.events fun2)))).2) := by
  simp only [innerLoop]
  rw [if_neg heq]

theorem inner_trace_mem (inp : VerifyInput) (fun1 : Nat) :
    ∀ (l : List Nat) (c : List (Nat × CompilerDiagnostic)) (a b : Nat),
      VEvent.pairCheckEv a b ∈ (innerLoop inp fun1 l c).2 ↔
        a = fun1 ∧ b ∈ l ∧ fun1 ≠ b := by
  intro l
  induction l with
  | nil => intro c a b; simp [innerLoop]
  | cons fun2 rest ih =>
      intro c a b
      by_cases heq : fun1 = fun2
      · subst heq
        rw [innerLoop_cons_skip, ih c a b]
        simp only [List.mem_cons]
        constructor
        · rintro ⟨rfl, hb, hne⟩
          exact ⟨rfl, Or.inr hb, hne⟩
        · rintro ⟨rfl, hb, hne⟩
          rcases hb with rfl | hb'
          · exact absurd rfl hne
          · exact ⟨rfl, hb', hne⟩
      · rw [innerLoop_cons_ne inp rest c heq]
        simp only [List.mem_cons]
        rw [ih (reportWriteConflicts (inp.functionName fun1) c
          (inp.writeEffects fun1).modifiedProperties inp.refuse
          (underBaseline (pairBaseline inp fun2) (inp.events fun2))) a b]
        constructor
        · rintro (hev | hmem)
          · have h1 : a = fun1 ∧ b = fun2 := by cases hev; exact ⟨rfl, rfl⟩
            refine ⟨h1.1, Or.inl h1.2, ?_⟩
            rw [h1.2]
            exact heq
          · obtain ⟨rfl, hb, hne⟩ := hmem
            exact ⟨rfl, Or.inr hb, hne⟩
        · rintro ⟨rfl, hb, hne⟩
          rcases hb with rfl | hb'
          · exact Or.inl rfl
          · exact Or.inr ⟨rfl, hb', hne⟩

theorem inner_trace_pairOnly (inp : VerifyInput) (fun1 : Nat) :
    ∀ (l : List Nat) (c : List (Nat × CompilerDiagnostic)) (ev : VEvent),
      ev ∈ (innerLoop inp fun1 l c).2 → ∃ a b, ev = VEvent.pairCheckEv a b := by
  intro l
  induction l with
  | nil => intro c ev h; simp [innerLoop] at h
  | cons fun2 rest ih =>
      intro c ev h
      by_cases heq : fun1 = fun2
      · subst heq
        rw [innerLoop_cons_skip] at h
        exact ih c ev h
      · rw [innerLoop_cons_ne inp rest c heq] at h
        simp only [List.mem_cons] at h
        rcases h with rfl | hmem
        · exact ⟨fun1, fun2, rfl⟩
        · exact ih _ ev hmem

theorem outerLoop_cons (inp : VerifyInput) (fun1 : Nat) (rest : List Nat)
    (c : List (Nat × CompilerDiagnostic)) :
    outerLoop inp (fun1 :: rest) c =
      ((outerLoop inp rest (innerLoop inp fun1 inp.fns c).1).1,
       VEvent.abruptCheckEv fun1 ::
         ((innerLoop inp fun1 inp.fns c).2 ++
           (outerLoop inp rest (innerLoop inp fun1 inp.fns c).1).2.1),
       (outerLoop inp rest (innerLoop inp fun1 inp.fns c).1).2.2) := by
  simp only [outerLoop]
  rw [if_neg (by simp [abruptResultGuard_false])]

theorem outer_no_abort (inp : VerifyInput) :
    ∀ (l : List Nat) (c : List (Nat × CompilerDiagnostic)),
      (outerLoop inp l c).2.2 = false := by
  intro l
  induction l with
  | nil => intro c; rfl
  | cons fun1 rest ih =>
      intro c
      rw [outerLoop_cons]
      exact ih _

theorem outer_nodupKeys (inp : VerifyInput) :
    ∀ (l : List Nat) (c : List (Nat × CompilerDiagnostic)),
      (c.map Prod.fst).Nodup → ((outerLoop inp l c).1.map Prod.fst).Nodup := by
  intro l
  induction l with
  | nil => intro c h; exact h
  | cons fun1 rest ih =>
      intro c h
      rw [outerLoop_cons]
      exact ih _ (nodupKeys_inner inp fun1 inp.fns c h)

theorem outer_ne_nil (inp : VerifyInput) :
    ∀ (l : List Nat) (c : List (Nat × CompilerDiagnostic)),
      c ≠ [] → (outerLoop inp l c).1 ≠ [] := by
  intro l
  induction l with
  | nil => intro c h; exact h
  | cons fun1 rest ih =>
      intro c h
      rw [outerLoop_cons]
      exact ih _ (inner_ne_nil inp fun1 inp.fns c h)

theorem outer_trace_mem (inp : VerifyInput) :
    ∀ (l : List Nat) (c : List (Nat × CompilerDiagnostic)) (a b : Nat),
      VEvent.pairCheckEv a b ∈ (outerLoop inp l c).2.1 ↔
        a ∈ l ∧ b ∈ inp.fns ∧ a ≠ b := by
  intro l
  induction l with
  | nil => intro c a b; simp [outerLoop]
  | cons fun1 rest ih =>
      intro c a b
      rw [outerLoop_cons]
      simp only [List.mem_cons, List.mem_append]
      rw [inner_trace_mem inp fun1 inp.fns c a b,
        ih (innerLoop inp fun1 inp.fns c).1 a b]
      constructor
      · rintro (hev | ⟨rfl, hb, hne⟩ | ⟨ha, hb, hne⟩)
        · cases hev
        · exact ⟨Or.inl rfl, hb, hne⟩
        · exact ⟨Or.inr ha, hb, hne⟩
      · rintro ⟨rfl | ha, hb, hne⟩
        · exact Or.inr (Or.inl ⟨rfl, hb, hne⟩)
        · exact Or.inr (Or.inr ⟨ha, hb, hne⟩)

theorem outer_trace_kinds (inp : VerifyInput) :
    ∀ (l : List Nat) (c : List (Nat × CompilerDiagnostic)) (ev : VEvent),
      ev ∈ (outerLoop inp l c).2.1 →
        (∃ f, ev = VEvent.abruptCheckEv f) ∨ (∃ a b, ev = VEvent.pairCheckEv a b) := by
  intro l
  induction l with
  | nil => intro c ev h; simp [outerLoop] at h
  | cons fun1 rest ih =>
      intro c ev h
      rw [outerLoop_cons] at h
      simp only [List.mem_cons, List.mem_append] at h
      rcases h with rfl | hmem | houter
      · exact Or.inl ⟨fun1, rfl⟩
      · exact Or.inr (inner_trace_pairOnly inp fun1 inp.fns c ev hmem)
      · exact ih _ ev houter

theorem reportedDiags_append (t1 t2 : List VEvent) :
    reportedDiags (t1 ++ t2) = reportedDiags t1 ++ reportedDiags t2 := by
  simp [reportedDiags, List.filterMap_append]

theorem reportedDiags_outer (inp : VerifyInput) (l : List Nat)
    (c : List (Nat × CompilerDiagnostic)) :
    reportedDiags (outerLoop inp l c).2.1 = [] := by
  rw [reportedDiags, List.filterMap_eq_nil_iff]
  intro ev hmem
  rcases outer_trace_kinds inp l c ev hmem with ⟨f, rfl⟩ | ⟨a, b, rfl⟩ <;> rfl

theorem reportedDiags_mapReport (c : List (Nat × CompilerDiagnostic)) :
    reportedDiags (c.map fun p => VEvent.reportEv p.2) = c.map Prod.snd := by
  induction c with
  | nil => rfl
  | cons p rest ih => simpa [reportedDiags, List.filterMap] using ih

theorem outer_no_fatal (inp : VerifyInput) (l : List Nat)
    (c : List (Nat × CompilerDiagnostic)) :
    VEvent.fatalEv ∉ (outerLoop inp l c).2.1 := by
  intro h
  rcases outer_trace_kinds inp l c _ h with ⟨f, hf⟩ | ⟨a, b, hab⟩
  · cases hf
  · cases hab

theorem outer_no_report (inp : VerifyInput) (l : List Nat)
    (c : List (Nat × CompilerDiagnostic)) (d : CompilerDiagnostic) :
    VEvent.reportEv d ∉ (outerLoop inp l c).2.1 := by
  intro h
  rcases outer_trace_kinds inp l c _ h with ⟨f, hf⟩ | ⟨a, b, hab⟩
  · cases hf
  · cases hab

theorem check_shape (inp : VerifyInput) :
    checkThatFunctionsAreIndependent inp =
      { conflicts := (outerLoop inp inp.fns []).1
        trace := (outerLoop inp inp.fns []).2.1 ++
          (if (outerLoop inp inp.fns []).1.isEmpty then [] else
            (outerLoop inp inp.fns []).1.map (fun p => VEvent.reportEv p.2) ++
              [.fatalEv])
        aborted := !(outerLoop inp inp.fns []).1.isEmpty } := by
  have hab := outer_no_abort inp inp.fns []
  simp only [checkThatFunctionsAreIndependent]
  rcases hx : outerLoop inp inp.fns [] with ⟨c, tr, ab⟩
  rw [hx] at hab
  simp only at hab
  subst hab
  by_cases hc : c.isEmpty
  · simp [hc, List.isEmpty_iff.mp hc]
  · simp [hc]

theorem underBaseline_nilApplied (evs : List AccessEvent) :
    underBaseline [] evs = evs := by
  rw [underBaseline]
  apply List.filter_eq_self.mpr
  intro ev _
  cases ev <;> simp

theorem underBaseline_all (applied : List Binding) (evs : List AccessEvent)
    (h : ∀ ev ∈ evs, ∃ b l, ev = AccessEvent.propAccess b l ∧ b ∈ applied) :
    underBaseline applied evs = [] := by
  rw [underBaseline]
  apply List.filter_eq_nil_iff.mpr
  intro ev hev
  obtain ⟨b, l, rfl, hb⟩ := h ev hev
  simp [hb]

theorem pairCheck_not_in_tail (c : List (Nat × CompilerDiagnostic)) (a b : Nat) :
    VEvent.pairCheckEv a b ∉
      (if c.isEmpty then ([] : List VEvent) else
        c.map (fun p => VEvent.reportEv p.2) ++ [.fatalEv]) := by
  split
  · simp
  · intro h
    rcases List.mem_append.mp h with h1 | h2
    · rcases List.mem_map.mp h1 with ⟨p, _, hp⟩
      cases hp
    · have h3 := List.mem_singleton.mp h2
      simp at h3

/-! ## Claim theorems -/

/-- Claim C1: the abrupt-completion guard of the verification phase can
never fire.  As JavaScript parses line 324, `!e1.result` is the boolean
`false` (a completion object is truthy) and `false instanceof C` is false
for every class, so the guard is false for every completion kind — while
the guard the diagnostic text intends is true exactly for a definite
abrupt completion.  Consequently, on a candidate set in which candidate 1
terminates abruptly, no PP1002 diagnostic is ever reported, the pairwise
checks all run, and the run ends by reporting an ordinary PP1003 conflict
instead of the claimed pre-pairwise fatal abort. -/
theorem c1_abrupt_guard_never_fires :
    (abruptResultGuard .normalValue = false ∧
      abruptResultGuard .possiblyNormal = false ∧
      abruptResultGuard .abrupt = false) ∧
    intendedAbruptGuard .abrupt = true ∧
    (checkThatFunctionsAreIndependent c1Input).trace =
      [.abruptCheckEv 1, .pairCheckEv 1 2, .abruptCheckEv 2, .pairCheckEv 2 1,
       .reportEv { code := .pp1003, fname := "F", loc := some 9 }, .fatalEv] ∧
    (∀ d ∈ reportedDiags (checkThatFunctionsAreIndependent c1Input).trace,
      d.code ≠ DiagCode.pp1002) ∧
    (checkThatFunctionsAreIndependent c1Input).conflicts ≠ [] := by
  refine ⟨⟨rfl, rfl, rfl⟩, rfl, by decide, by decide, by decide⟩

theorem synthesizeArgs_error (ps : List Param) :
    Param.patternParam ∈ ps → synthesizeArgs ps = .error .pp1005 := by
  induction ps with
  | nil => intro h; simp at h
  | cons p rest ih =>
      intro h
      cases p with
      | patternParam => rfl
      | ident n =>
          have hmem : Param.patternParam ∈ rest := by
            rcases List.mem_cons.mp h with h1 | h2
            · cases h1
            · exact h2
          simp only [synthesizeArgs, ih hmem]

theorem callOfFunction_error (fs : FuncSpec) (hlen : fs.length ≠ 0)
    (hpat : Param.patternParam ∈ fs.params) :
    callOfFunction fs = .error .pp1005 := by
  rw [callOfFunction, if_pos hlen]
  exact synthesizeArgs_error fs.params hpat

theorem recordLoop_trace_mono (world : World) (handler : Handler) :
    ∀ (fuel : Nat) (st : TravState) (tasks : List (Option Nat × Nat)),
      ∃ t, (recordLoop world handler fuel st tasks).1.trace = st.trace ++ t := by
  intro fuel
  induction fuel with
  | zero => intro st tasks; exact ⟨[], by simp [recordLoop]⟩
  | succ fuel ih =>
      intro st tasks
      cases tasks with
      | nil => exact ⟨[], by simp [recordLoop]⟩
      | cons task rest =>
          obtain ⟨ctx, f⟩ := task
          cases hcall : callOfFunction (world f) with
          | error c =>
              refine ⟨revealEvents ctx f ++ [.diagEv c f], ?_⟩
              simp [recordLoop, hcall]
          | ok args =>
              by_cases hdup : hasKey st.writeEffects f = true
              · cases hh : handler .pp1009 with
                | fail =>
                    refine ⟨revealEvents ctx f ++
                      [.argSynthEv f, .captureEv f] ++ [.diagEv .pp1009 f], ?_⟩
                    simp [recordLoop, hcall, hdup, hh]
                | recover =>
                    rcases hgen : generateOptimizedFunctionsFromRealm world
                        handler (world f).registers with ⟨nested, gevs, gerr⟩
                    have hcomp : ∀ (st' : TravState)
                        (tasks' : List (Option Nat × Nat)) (pre : List REvent),
                        st'.trace = st.trace ++ pre →
                        ∃ t, (recordLoop world handler fuel st' tasks').1.trace =
                          st.trace ++ t := by
                      intro st' tasks' pre hpre
                      obtain ⟨t, ht⟩ := ih st' tasks'
                      exact ⟨pre ++ t, by rw [ht, hpre, List.append_assoc]⟩
                    cases gerr with
                    | some e =>
                        refine ⟨revealEvents ctx f ++
                          [.argSynthEv f, .captureEv f] ++ [.diagEv .pp1009 f] ++
                          [.storeEv f (getDeclaringAdditionalFunction
                            st.writeEffects f)] ++ gevs, ?_⟩
                        simp [recordLoop, hcall, hdup, hh, hgen, mkRecord]
                    | none =>
                        simp only [recordLoop, hcall, hdup, hh, hgen, mkRecord]
                        exact hcomp _ _
                          (revealEvents ctx f ++ ([.argSynthEv f, .captureEv f] ++
                            ([.diagEv .pp1009 f] ++
                              ([.storeEv f (getDeclaringAdditionalFunction
                                st.writeEffects f)] ++ gevs))))
                          (by simp [List.append_assoc])
              · rcases hgen : generateOptimizedFunctionsFromRealm world
                    handler (world f).registers with ⟨nested, gevs, gerr⟩
                have hcomp : ∀ (st' : TravState)
                    (tasks' : List (Option Nat × Nat)) (pre : List REvent),
                    st'.trace = st.trace ++ pre →
                    ∃ t, (recordLoop world handler fuel st' tasks').1.trace =
                      st.trace ++ t := by
                  intro st' tasks' pre hpre
                  obtain ⟨t, ht⟩ := ih st' tasks'
                  exact ⟨pre ++ t, by rw [ht, hpre, List.append_assoc]⟩
                simp only [Bool.not_eq_true] at hdup
                cases gerr with
                | some e =>
                    refine ⟨revealEvents ctx f ++
                      [.argSynthEv f, .captureEv f] ++
                      [.storeEv f (getDeclaringAdditionalFunction
                        st.writeEffects f)] ++ gevs, ?_⟩
                    simp [recordLoop, hcall, hdup, hgen, mkRecord]
                | none =>
                    simp only [recordLoop, hcall, hdup, hgen, mkRecord]
                    exact hcomp _ _
                      (revealEvents ctx f ++ ([.argSynthEv f, .captureEv f] ++
                        ([.storeEv f (getDeclaringAdditionalFunction
                          st.writeEffects f)] ++ gevs)))
                      (by simp [List.append_assoc])

theorem generate_cons_valid (world : World) (handler : Handler) (g : Nat)
    (rest : List Nat) (hv : (world g).valid = true) :
    generateOptimizedFunctionsFromRealm world handler (g :: rest) =
      (g :: (generateOptimizedFunctionsFromRealm world handler rest).1,
       (generateOptimizedFunctionsFromRealm world handler rest).2.1,
       (generateOptimizedFunctionsFromRealm world handler rest).2.2) := by
  simp [generateOptimizedFunctionsFromRealm, hv]

theorem generate_cons_invalid_recover (world : World) (handler : Handler)
    (g : Nat) (rest : List Nat) (hv : (world g).valid = false)
    (hrec : handler .pp1008 = .recover) :
    generateOptimizedFunctionsFromRealm world handler (g :: rest) =
      ((generateOptimizedFunctionsFromRealm world handler rest).1,
       .diagEv .pp1008 g ::
         (generateOptimizedFunctionsFromRealm world handler rest).2.1,
       (generateOptimizedFunctionsFromRealm world handler rest).2.2) := by
  simp [generateOptimizedFunctionsFromRealm, hv, hrec]

theorem generate_cons_invalid_fail (world : World) (handler : Handler)
    (g : Nat) (rest : List Nat) (hv : (world g).valid = false)
    (hfail : handler .pp1008 = .fail) :
    generateOptimizedFunctionsFromRealm world handler (g :: rest) =
      ([], [.diagEv .pp1008 g], some .fatalErr) := by
  simp [generateOptimizedFunctionsFromRealm, hv, hfail]

theorem getDeclaring_mem (we : List (Nat × EffectsRecord)) (f : Nat) :
    ∀ P, getDeclaringAdditionalFunction we f = some P →
      ∃ r, (P, r) ∈ we ∧ f ∈ r.createdObjects := by
  induction we with
  | nil => intro P h; simp [getDeclaringAdditionalFunction] at h
  | cons p rest ih =>
      obtain ⟨g, r⟩ := p
      intro P h
      by_cases hc : r.createdObjects.contains f = true
      · rw [getDeclaringAdditionalFunction, if_pos hc] at h
        cases h
        exact ⟨r, List.mem_cons_self _ _, by simpa using hc⟩
      · rw [getDeclaringAdditionalFunction, if_neg hc] at h
        obtain ⟨r', hmem, hf⟩ := ih P h
        exact ⟨r', List.mem_cons.mpr (Or.inr hmem), hf⟩

theorem tableOk_mapSet (world : World) (we : List (Nat × EffectsRecord))
    (f : Nat) (hok : TableOk world we) :
    TableOk world (mapSet we f (mkRecord world we f)) := by
  intro p hp
  rcases mem_mapSet we f (mkRecord world we f) p hp with rfl | hmem
  · refine ⟨rfl, ?_⟩
    intro P hP
    have hP' : getDeclaringAdditionalFunction we f = some P := hP
    obtain ⟨r, hmemr, hf⟩ := getDeclaring_mem we f P hP'
    have h1 := (hok (P, r) hmemr).1
    refine ⟨hasKey_mapSet_of f (mkRecord world we f)
      (hasKey_of_mem we P r hmemr), ?_⟩
    rw [← h1]
    exact hf
  · have h2 := hok p hmem
    exact ⟨h2.1, fun P hP =>
      ⟨hasKey_mapSet_of f (mkRecord world we f) ((h2.2 P hP).1),
        (h2.2 P hP).2⟩⟩

theorem recordLoop_tableOk (world : World) (handler : Handler) :
    ∀ (fuel : Nat) (st : TravState) (tasks : List (Option Nat × Nat)),
      TableOk world st.writeEffects →
      TableOk world (recordLoop world handler fuel st tasks).1.writeEffects := by
  intro fuel
  induction fuel with
  | zero => intro st tasks h; simpa [recordLoop] using h
  | succ fuel ih =>
      intro st tasks h
      cases tasks with
      | nil => simpa [recordLoop] using h
      | cons task rest =>
          obtain ⟨ctx, f⟩ := task
          have hpar : (mkRecord world st.writeEffects f).parentAdditionalFunction =
              getDeclaringAdditionalFunction st.writeEffects f := rfl
          cases hcall : callOfFunction (world f) with
          | error c => simpa [recordLoop, hcall] using h
          | ok args =>
              by_cases hdup : hasKey st.writeEffects f = true
              · cases hh : handler .pp1009 with
                | fail => simpa [recordLoop, hcall, hdup, hh] using h
                | recover =>
                    rcases hgen : generateOptimizedFunctionsFromRealm world
                        handler (world f).registers with ⟨nested, gevs, gerr⟩
                    cases gerr with
                    | some e =>
                        have hok2 := tableOk_mapSet world st.writeEffects f h
                        simpa [recordLoop, hcall, hdup, hh, hgen] using hok2
                    | none =>
                        have hstepEq : recordLoop world handler (fuel + 1) st
                            ((ctx, f) :: rest) =
                            recordLoop world handler fuel
                              { writeEffects := mapSet st.writeEffects f
                                  (mkRecord world st.writeEffects f)
                                trace := (((st.trace ++ revealEvents ctx f) ++
                                  [.argSynthEv f, .captureEv f]) ++
                                  [.diagEv .pp1009 f]) ++
                                  [.storeEv f (getDeclaringAdditionalFunction
                                    st.writeEffects f)] ++ gevs }
                              (nested.map (fun g => (some f, g)) ++ rest) := by
                          simp [recordLoop, hcall, hdup, hh, hgen, hpar]
                        rw [hstepEq]
                        exact ih _ _ (tableOk_mapSet world st.writeEffects f h)
              · rcases hgen : generateOptimizedFunctionsFromRealm world
                    handler (world f).registers with ⟨nested, gevs, gerr⟩
                simp only [Bool.not_eq_true] at hdup
                cases gerr with
                | some e =>
                    have hok2 := tableOk_mapSet world st.writeEffects f h
                    simpa [recordLoop, hcall, hdup, hgen] using hok2
                | none =>
                    have hstepEq : recordLoop world handler (fuel + 1) st
                        ((ctx, f) :: rest) =
                        recordLoop world handler fuel
                          { writeEffects := mapSet st.writeEffects f
                              (mkRecord world st.writeEffects f)
                            trace := ((st.trace ++ revealEvents ctx f) ++
                              [.argSynthEv f, .captureEv f]) ++
                              [.storeEv f (getDeclaringAdditionalFunction
                                st.writeEffects f)] ++ gevs }
                          (nested.map (fun g => (some f, g)) ++ rest) := by
                      simp [recordLoop, hcall, hdup, hgen, hpar]
                    rw [hstepEq]
                    exact ih _ _ (tableOk_mapSet world st.writeEffects f h)

/-- Claim C3: across the whole all-pairs verification the conflicts map
holds at most one diagnostic per source location — its keys are free of
duplicates for every input — and on the concrete input where candidate 1
writes binding `(7, 3)` and candidate 2 reads it three times at location
4, exactly one diagnostic results, at location 4, naming candidate 1
("A"). -/
theorem c3_one_diagnostic_per_location :
    (∀ inp : VerifyInput,
      ((checkThatFunctionsAreIndependent inp).conflicts.map Prod.fst).Nodup) ∧
    (checkThatFunctionsAreIndependent c3Input).conflicts =
      [(4, { code := .pp1003, fname := "A", loc := some 4 })] := by
  constructor
  · intro inp
    rw [check_shape]
    exact outer_nodupKeys inp inp.fns [] (by simp)
  · decide

/-- Claim C5: conflict detection is exhaustive and batched.  For every
input: (1) a pair is replayed exactly for every ordered pair of distinct
candidates; (2) the diagnostics handed to `realm.handleError` are exactly
the accumulated conflicts, each reported once; (3) a `FatalError` abort
happens iff the accumulated collection is non-empty; (4) at most one
fatal abort occurs; (5) the trace splits into a checking phase with no
report events followed by a reporting phase with no pair checks. -/
theorem c5_exhaustive_batched_reporting (inp : VerifyInput) :
    (∀ a b : Nat,
      VEvent.pairCheckEv a b ∈ (checkThatFunctionsAreIndependent inp).trace ↔
        a ∈ inp.fns ∧ b ∈ inp.fns ∧ a ≠ b) ∧
    reportedDiags (checkThatFunctionsAreIndependent inp).trace =
      (checkThatFunctionsAreIndependent inp).conflicts.map Prod.snd ∧
    (checkThatFunctionsAreIndependent inp).aborted =
      !(checkThatFunctionsAreIndependent inp).conflicts.isEmpty ∧
    (checkThatFunctionsAreIndependent inp).trace.count VEvent.fatalEv =
      (if (checkThatFunctionsAreIndependent inp).conflicts.isEmpty then 0
        else 1) ∧
    ∃ t1 t2, (checkThatFunctionsAreIndependent inp).trace = t1 ++ t2 ∧
      (∀ d : CompilerDiagnostic, VEvent.reportEv d ∉ t1) ∧
      (∀ a b : Nat, VEvent.pairCheckEv a b ∉ t2) := by
  rw [check_shape]
  refine ⟨?_, ?_, rfl, ?_, ?_⟩
  · intro a b
    show VEvent.pairCheckEv a b ∈ (outerLoop inp inp.fns []).2.1 ++ _ ↔ _
    rw [List.mem_append]
    constructor
    · rintro (h1 | h2)
      · exact (outer_trace_mem inp inp.fns [] a b).mp h1
      · exact absurd h2 (pairCheck_not_in_tail _ a b)
    · intro h
      exact Or.inl ((outer_trace_mem inp inp.fns [] a b).mpr h)
  · show reportedDiags ((outerLoop inp inp.fns []).2.1 ++ _) = _
    rw [reportedDiags_append, reportedDiags_outer, List.nil_append]
    split
    · next hempty =>
        rw [List.isEmpty_iff.mp hempty]
        rfl
    · rw [reportedDiags_append, reportedDiags_mapReport]
      simp [reportedDiags]
  · show ((outerLoop inp inp.fns []).2.1 ++ _).count VEvent.fatalEv = _
    rw [List.count_append,
      List.count_eq_zero.mpr (outer_no_fatal inp inp.fns [])]
    split
    · simp
    · rw [List.count_append]
      have hmap : ((outerLoop inp inp.fns []).1.map
          (fun p => VEvent.reportEv p.2)).count VEvent.fatalEv = 0 := by
        rw [List.count_eq_zero]
        intro h
        rcases List.mem_map.mp h with ⟨p, _, hp⟩
        cases hp
      rw [hmap]
      simp
  · refine ⟨(outerLoop inp inp.fns []).2.1, _, rfl,
      fun d => outer_no_report inp inp.fns [] d,
      fun a b => pairCheck_not_in_tail _ a b⟩

/-- Claim C2: the replay baseline of a candidate `H` checked against a
candidate `F` is dispatched on `H`'s `parentAdditionalFunction`.  With two
candidates where every access `H` performs reads a binding `F` wrote: when
`H`'s parent is `F`, the replay runs under `F`'s committed effects, those
reads are resolved by the applied baseline, and the whole verification
ends with zero conflicts; when `H` has no parent, the same replay runs
against the untouched global baseline and the same reads do produce
conflicts. -/
theorem c2_nested_candidate_baseline (inp : VerifyInput) (F H : Nat)
    (hfns : inp.fns = [F, H]) (hne : F ≠ H)
    (hevF : inp.events F = [])
    (hevH : ∀ ev ∈ inp.events H, ∃ b l,
      ev = AccessEvent.propAccess b (some l) ∧
      b ∈ (inp.writeEffects F).modifiedProperties ∧ inp.refuse b = false) :
    ((inp.writeEffects H).parentAdditionalFunction = some F →
      (checkThatFunctionsAreIndependent inp).conflicts = [] ∧
      (checkThatFunctionsAreIndependent inp).aborted = false) ∧
    ((inp.writeEffects H).parentAdditionalFunction = none →
      inp.events H ≠ [] →
      (checkThatFunctionsAreIndependent inp).conflicts ≠ [] ∧
      (checkThatFunctionsAreIndependent inp).aborted = true) := by
  constructor
  · intro hparH
    have hfilter : underBaseline (pairBaseline inp H) (inp.events H) = [] := by
      rw [pairBaseline, hparH]
      apply underBaseline_all
      intro ev hev
      obtain ⟨b, l, rfl, hb, _⟩ := hevH ev hev
      exact ⟨b, some l, rfl, hb⟩
    have hc1 : (innerLoop inp F [F, H] []).1 = [] := by
      rw [innerLoop_cons_skip, innerLoop_cons_ne inp [] [] hne, hfilter]
      rfl
    have hc2 : (innerLoop inp H [F, H] []).1 = [] := by
      rw [innerLoop_cons_ne inp [H] [] (Ne.symm hne), hevF,
        innerLoop_cons_skip]
      rfl
    have houter : (outerLoop inp [F, H] []).1 = [] := by
      rw [outerLoop_cons, outerLoop_cons, hfns, hc1, hc2]
      rfl
    constructor
    · rw [check_shape]
      show (outerLoop inp inp.fns []).1 = []
      rw [hfns, houter]
    · rw [check_shape]
      show (!(outerLoop inp inp.fns []).1.isEmpty) = false
      rw [hfns, houter]
      rfl
  · intro hparH hneev
    have hub : underBaseline (pairBaseline inp H) (inp.events H) =
        inp.events H := by
      rw [pairBaseline, hparH, underBaseline_nilApplied]
    obtain ⟨ev, evs, hevsplit⟩ : ∃ ev evs, inp.events H = ev :: evs := by
      cases hE : inp.events H with
      | nil => exact absurd hE hneev
      | cons ev evs => exact ⟨ev, evs, rfl⟩
    obtain ⟨b, l, hevq, hb, hrf⟩ :=
      hevH ev (by rw [hevsplit]; exact List.mem_cons_self _ _)
    have hstep : reportConflictStep (inp.functionName F)
        (inp.writeEffects F).modifiedProperties inp.refuse [] ev =
        reportConflict (inp.functionName F) [] l := by
      rw [hevq]
      simp only [reportConflictStep, hrf, Bool.false_eq_true, if_false]
      rw [if_pos (by simp [hasKey, lookupKey, hb])]
    have hrwc : reportWriteConflicts (inp.functionName F) []
        (inp.writeEffects F).modifiedProperties inp.refuse
        (inp.events H) ≠ [] := by
      rw [hevsplit]
      have hfold : reportWriteConflicts (inp.functionName F) []
          (inp.writeEffects F).modifiedProperties inp.refuse (ev :: evs) =
          reportWriteConflicts (inp.functionName F)
            (reportConflictStep (inp.functionName F)
              (inp.writeEffects F).modifiedProperties inp.refuse [] ev)
            (inp.writeEffects F).modifiedProperties inp.refuse evs := rfl
      rw [hfold, hstep]
      apply fold_ne_nil
      simp [reportConflict]
    have hc1 : (innerLoop inp F [F, H] []).1 ≠ [] := by
      rw [innerLoop_cons_skip, innerLoop_cons_ne inp [] [] hne, hub]
      exact hrwc
    have hc2 : (innerLoop inp H [F, H]
        (innerLoop inp F [F, H] []).1).1 ≠ [] := by
      rw [innerLoop_cons_ne inp [H] _ (Ne.symm hne), hevF,
        innerLoop_cons_skip]
      exact hc1
    have houter : (outerLoop inp [F, H] []).1 ≠ [] := by
      rw [outerLoop_cons, outerLoop_cons, hfns]
      exact hc2
    have hempty : (outerLoop inp [F, H] []).1.isEmpty = false := by
      rcases h : (outerLoop inp [F, H] []).1 with _ | ⟨p, r⟩
      · exact absurd h houter
      · rfl
    constructor
    · rw [check_shape]
      show (outerLoop inp inp.fns []).1 ≠ []
      rw [hfns]
      exact houter
    · rw [check_shape]
      show (!(outerLoop inp inp.fns []).1.isEmpty) = true
      rw [hfns, hempty]
      rfl

/-- Claim C4, counterexample: when function 1, already recorded in the
`writeEffects` table, is processed again, the speculative capture
(`evaluatePure`) of that second recording happens strictly before the
PP1009 double-optimization diagnostic is raised — not after it, as the
claim states. -/
theorem c4_counterexample :
    (recordLoop world0 handler0 1 st0 [(none, 1)]).1.trace =
      [.argSynthEv 1, .captureEv 1, .diagEv .pp1009 1] ∧
    (recordLoop world0 handler0 1 st0 [(none, 1)]).1.trace.indexOf
        (REvent.captureEv 1) <
      (recordLoop world0 handler0 1 st0 [(none, 1)]).1.trace.indexOf
        (REvent.diagEv .pp1009 1) ∧
    (recordLoop world0 handler0 1 st0 [(none, 1)]).2 = some .fatalErr := by
  refine ⟨by decide, by decide, by decide⟩

/-- Claim C4 (amended): when a callable already recorded in the
`writeEffects` table is recorded a second time, the PP1009
double-optimization diagnostic is raised during that second recording
after its speculative capture completes and before the new record is
stored; the traversal then aborts with a `FatalError` unless the error
handler answers `"Recover"`, in which case the record is stored (the
store event follows the diagnostic) and processing continues. -/
theorem c4_double_opt_after_capture (world : World) (handler : Handler)
    (fuel : Nat) (st : TravState) (ctx : Option Nat) (f : Nat)
    (rest : List (Option Nat × Nat)) (args : List String)
    (hok : callOfFunction (world f) = .ok args)
    (hdup : hasKey st.writeEffects f = true) :
    (handler .pp1009 = .fail →
      recordLoop world handler (fuel + 1) st ((ctx, f) :: rest) =
        ({ st with trace := ((st.trace ++ revealEvents ctx f) ++
            [.argSynthEv f, .captureEv f]) ++ [.diagEv .pp1009 f] },
          some .fatalErr)) ∧
    (handler .pp1009 = .recover →
      ∃ tail,
        (recordLoop world handler (fuel + 1) st ((ctx, f) :: rest)).1.trace =
          ((((st.trace ++ revealEvents ctx f) ++
            [.argSynthEv f, .captureEv f]) ++ [.diagEv .pp1009 f]) ++
            [.storeEv f (getDeclaringAdditionalFunction st.writeEffects f)]) ++
            tail) := by
  constructor
  · intro hfail
    simp [recordLoop, hok, hdup, hfail]
  · intro hrec
    rcases hgen : generateOptimizedFunctionsFromRealm world handler
        (world f).registers with ⟨nested, gevs, gerr⟩
    cases gerr with
    | some e =>
        refine ⟨gevs, ?_⟩
        simp [recordLoop, hok, hdup, hrec, hgen, mkRecord, List.append_assoc]
    | none =>
        have hpar : (mkRecord world st.writeEffects f).parentAdditionalFunction =
            getDeclaringAdditionalFunction st.writeEffects f := rfl
        have hstep : recordLoop world handler (fuel + 1) st ((ctx, f) :: rest) =
            recordLoop world handler fuel
              { writeEffects := mapSet st.writeEffects f
                  (mkRecord world st.writeEffects f)
                trace := (((st.trace ++ revealEvents ctx f) ++
                  [.argSynthEv f, .captureEv f]) ++ [.diagEv .pp1009 f]) ++
                  [.storeEv f
                    (getDeclaringAdditionalFunction st.writeEffects f)] ++
                  gevs }
              (nested.map (fun g => (some f, g)) ++ rest) := by
          simp [recordLoop, hok, hdup, hrec, hgen, hpar]
        rw [hstep]
        obtain ⟨t, ht⟩ := recordLoop_trace_mono world handler fuel
          { writeEffects := mapSet st.writeEffects f
              (mkRecord world st.writeEffects f)
            trace := (((st.trace ++ revealEvents ctx f) ++
              [.argSynthEv f, .captureEv f]) ++ [.diagEv .pp1009 f]) ++
              [.storeEv f (getDeclaringAdditionalFunction st.writeEffects f)] ++
              gevs }
          (nested.map (fun g => (some f, g)) ++ rest)
        refine ⟨gevs ++ t, ?_⟩
        rw [ht]
        simp [List.append_assoc]

/-- Claim C4, witness: the amended behavior at the concrete second
recording of function 1 under the never-recovering handler. -/
theorem c4_double_opt_witness :
    (handler0 .pp1009 = .fail →
      recordLoop world0 handler0 1 st0 [(none, 1)] =
        ({ st0 with trace := ((st0.trace ++ revealEvents none 1) ++
            [.argSynthEv 1, .captureEv 1]) ++ [.diagEv .pp1009 1] },
          some .fatalErr)) ∧
    (handler0 .pp1009 = .recover →
      ∃ tail,
        (recordLoop world0 handler0 1 st0 [(none, 1)]).1.trace =
          ((((st0.trace ++ revealEvents none 1) ++
            [.argSynthEv 1, .captureEv 1]) ++ [.diagEv .pp1009 1]) ++
            [.storeEv 1 (getDeclaringAdditionalFunction st0.writeEffects 1)]) ++
            tail) :=
  c4_double_opt_after_capture world0 handler0 0 st0 none 1 [] []
    rfl (by decide)

/-- Claim C7 (amended): a candidate whose reported arity
(`funcValue.getLength()`) is positive and whose formal parameter list
contains a non-simple parameter fails with the fatal PP1005 diagnostic
during argument synthesis, before the speculative capture ever runs — no
capture event is emitted for it.  (A candidate of arity 0 skips the
parameter check entirely; see the counterexample.) -/
theorem c7_pattern_param_fails_before_capture (world : World)
    (handler : Handler) (fuel : Nat) (st : TravState) (ctx : Option Nat)
    (f : Nat) (rest : List (Option Nat × Nat))
    (hlen : (world f).length ≠ 0)
    (hpat : Param.patternParam ∈ (world f).params) :
    recordLoop world handler (fuel + 1) st ((ctx, f) :: rest) =
      ({ st with trace := (st.trace ++ revealEvents ctx f) ++
          [.diagEv .pp1005 f] }, some .fatalErr) ∧
    REvent.captureEv f ∉ revealEvents ctx f ++ [REvent.diagEv .pp1005 f] := by
  have hcall := callOfFunction_error (world f) hlen hpat
  constructor
  · simp [recordLoop, hcall]
  · cases ctx <;> simp [revealEvents]

/-- Claim C7, witness: the amended behavior at the concrete candidate 3,
`function({ a }) { }`, whose arity is 1 and whose only parameter is a
destructuring pattern. -/
theorem c7_pattern_param_witness :
    (recordLoop world2 handler0 1 travInit [(none, 3)] =
      ({ travInit with trace := (travInit.trace ++ revealEvents none 3) ++
          [.diagEv .pp1005 3] }, some .fatalErr)) ∧
    REvent.captureEv 3 ∉ revealEvents none 3 ++ [REvent.diagEv .pp1005 3] :=
  c7_pattern_param_fails_before_capture world2 handler0 0 travInit none 3 []
    (by decide) (by decide)

/-- Claim C6, counterexample: `_withEmptyOptimizedFunctionList` has no
try/finally, so when the callee throws after registering function 9, the
snapshot entry for function 7 is not merged back — the realm is left with
exactly the callee's map, and the snapshot is lost. -/
theorem c6_counterexample :
    (withEmptyOptimizedFunctionList [(7, 0)]
        (fun _ => ([(9, 1)], some .fatalErr))).1 = [(9, 1)] ∧
    hasKey (withEmptyOptimizedFunctionList [(7, 0)]
        (fun _ => ([(9, 1)], some .fatalErr))).1 7 = false ∧
    (withEmptyOptimizedFunctionList [(7, 0)]
        (fun _ => ([(9, 1)], some .fatalErr))).2 = some .fatalErr := by
  refine ⟨rfl, rfl, rfl⟩

/-- Claim C7, counterexample: function 4 declares `function(...r) { }` —
its formal parameter list holds a rest pattern, but its ECMAScript
`length` is 0, so `_callOfFunction` skips the parameter loop entirely: no
PP1005 diagnostic is raised, and the speculative capture runs. -/
theorem c7_counterexample :
    (recordLoop world2 handler0 2 travInit [(none, 4)]).1.trace =
      [.argSynthEv 4, .captureEv 4, .storeEv 4 none] ∧
    REvent.diagEv .pp1005 4 ∉
      (recordLoop world2 handler0 2 travInit [(none, 4)]).1.trace ∧
    REvent.captureEv 4 ∈
      (recordLoop world2 handler0 2 travInit [(none, 4)]).1.trace ∧
    (recordLoop world2 handler0 2 travInit [(none, 4)]).2 = none := by
  refine ⟨by decide, by decide, by decide, by decide⟩

/-- Claim C8, counterexample: in `world0`, function 1 is discovered while
function 0's effects are being committed (the trace holds the reveal),
yet its stored `parentAdditionalFunction` is `none`, because 1 is not
among 0's created objects — the code keys the parent on
`createdObjects`, not on the discovery context. -/
theorem c8_counterexample :
    REvent.revealEv 0 1 ∈ (runCapturePhase world0 handler0 4 [0]).1.trace ∧
    lookupKey (runCapturePhase world0 handler0 4 [0]).1.writeEffects 1 =
      some { createdObjects := [], modifiedProperties := [],
             resultKind := .normalValue, parentAdditionalFunction := none } ∧
    (runCapturePhase world0 handler0 4 [0]).2 = none := by
  refine ⟨by decide, by decide, by decide⟩

/-- Claim C2, witness: the two baseline behaviors at the concrete nested
pair — candidate 2, whose parent is candidate 1, reads the binding its
parent wrote, and verification reports nothing (the second conjunct is
vacuous there since candidate 2 does have a parent). -/
theorem c2_nested_candidate_baseline_witness :
    ((c2Input.writeEffects 2).parentAdditionalFunction = some 1 →
      (checkThatFunctionsAreIndependent c2Input).conflicts = [] ∧
      (checkThatFunctionsAreIndependent c2Input).aborted = false) ∧
    ((c2Input.writeEffects 2).parentAdditionalFunction = none →
      c2Input.events 2 ≠ [] →
      (checkThatFunctionsAreIndependent c2Input).conflicts ≠ [] ∧
      (checkThatFunctionsAreIndependent c2Input).aborted = true) :=
  c2_nested_candidate_baseline c2Input 1 2 rfl (by decide) rfl
    (by
      intro ev hev
      have hev' : ev = AccessEvent.propAccess ⟨3, 0⟩ (some 6) := by
        simpa [c2Input] using hev
      exact ⟨⟨3, 0⟩, 6, hev', by decide, rfl⟩)

/-- Claim C6 (amended): on a normal return `_withEmptyOptimizedFunctionList`
merges the snapshot back into whatever map the callee left — each
snapshot entry's value wins for its key, and keys outside the snapshot
keep the callee's value; on an error exit the merge loop is never reached,
and the realm keeps exactly the callee's map as it stood at the throw. -/
theorem c6_restore_merge_on_normal_exit (ofs : List (Nat × Nat))
    (func : List (Nat × Nat) → List (Nat × Nat) × Option TravErr) :
    ((func []).2 = none → (ofs.map Prod.fst).Nodup →
      (∀ k v, (k, v) ∈ ofs →
        lookupKey (withEmptyOptimizedFunctionList ofs func).1 k = some v) ∧
      (∀ k, hasKey ofs k = false →
        lookupKey (withEmptyOptimizedFunctionList ofs func).1 k =
          lookupKey (func []).1 k)) ∧
    (∀ e, (func []).2 = some e →
      withEmptyOptimizedFunctionList ofs func = ((func []).1, some e)) := by
  constructor
  · intro hnone hnd
    have hw : withEmptyOptimizedFunctionList ofs func =
        (mapSetAll (func []).1 ofs, none) := by
      simp [withEmptyOptimizedFunctionList, hnone]
    constructor
    · intro k v hkv
      rw [hw]
      exact lookupKey_mapSetAll_mem ofs k v (func []).1 hnd hkv
    · intro k hk
      rw [hw]
      exact lookupKey_mapSetAll_not_mem ofs k (func []).1
        (hasKey_false_not_mem ofs k hk)
  · intro e he
    simp [withEmptyOptimizedFunctionList, he]

/-- Claim C8 (amended): in the finalized table,
`parentAdditionalFunction`, when set, names a candidate that is itself
recorded and whose speculative evaluation created the entry's function
value (the first such candidate in table order).  It is keyed on
`createdObjects`, not on the discovery context: a candidate revealed
during another candidate's commit whose function value pre-exists gets no
parent (see the counterexample). -/
theorem c8_parent_names_creator (world : World) (handler : Handler)
    (fuel : Nat) (tops : List Nat) (f P : Nat) (r : EffectsRecord)
    (hmem : (f, r) ∈ (runCapturePhase world handler fuel tops).1.writeEffects)
    (hpar : r.parentAdditionalFunction = some P) :
    hasKey (runCapturePhase world handler fuel tops).1.writeEffects P = true ∧
    f ∈ (world P).createdObjects := by
  have h0 : TableOk world ([] : List (Nat × EffectsRecord)) := by
    intro p hp
    simp at hp
  rcases hgen : generateOptimizedFunctionsFromRealm world handler tops with
    ⟨initial, evs, gerr⟩
  cases gerr with
  | some e =>
      rw [runCapturePhase, hgen] at hmem
      simp at hmem
  | none =>
      rw [runCapturePhase, hgen] at hmem ⊢
      have htab := recordLoop_tableOk world handler fuel
        { writeEffects := [], trace := evs }
        (initial.map (fun g => (none, g))) h0
      exact (htab (f, r) hmem).2 P hpar

/-- Claim C8, witness: in the world where candidate 0 both creates and
registers function 1, the recorded entry for 1 carries
`parentAdditionalFunction` 0, and 0 is a recorded key that created 1. -/
theorem c8_parent_names_creator_witness :
    hasKey (runCapturePhase world1 handler0 4 [0]).1.writeEffects 0 = true ∧
    1 ∈ (world1 0).createdObjects :=
  c8_parent_names_creator world1 handler0 4 [0] 1 0
    { createdObjects := [], modifiedProperties := [],
      resultKind := .normalValue, parentAdditionalFunction := some 0 }
    (by decide) rfl

/-- Claim C9: candidate-list generation never collects a registration
whose function value is invalid (registered in a discarded speculative
context).  Each invalid registration produces one PP1008 diagnostic,
whose severity is `RecoverableError`; when the handler answers
`"Recover"` generation completes with exactly the valid registrations in
order and one diagnostic per invalid one, and when it does not and an
invalid registration exists, a `FatalError` is thrown. -/
theorem c9_invalid_registrations_filtered (world : World) (handler : Handler)
    (regs : List Nat) :
    (∀ f ∈ (generateOptimizedFunctionsFromRealm world handler regs).1,
      (world f).valid = true) ∧
    diagSeverity .pp1008 = .recoverableError ∧
    (handler .pp1008 = .recover →
      generateOptimizedFunctionsFromRealm world handler regs =
        (regs.filter (fun f => (world f).valid),
         (regs.filter (fun f => !(world f).valid)).map
           (fun f => REvent.diagEv .pp1008 f),
         none)) ∧
    ((∃ f ∈ regs, (world f).valid = false) → handler .pp1008 = .fail →
      (generateOptimizedFunctionsFromRealm world handler regs).2.2 =
        some .fatalErr) := by
  refine ⟨?_, rfl, ?_, ?_⟩
  · induction regs with
    | nil => intro f hf; simp [generateOptimizedFunctionsFromRealm] at hf
    | cons g rest ih =>
        intro f hf
        by_cases hv : (world g).valid = true
        · rw [generate_cons_valid world handler g rest hv] at hf
          rcases List.mem_cons.mp hf with rfl | hf'
          · exact hv
          · exact ih f hf'
        · have hv' : (world g).valid = false := by
            simpa using hv
          cases hh : handler .pp1008 with
          | recover =>
              rw [generate_cons_invalid_recover world handler g rest hv' hh]
                at hf
              exact ih f hf
          | fail =>
              rw [generate_cons_invalid_fail world handler g rest hv' hh] at hf
              simp at hf
  · intro hrec
    induction regs with
    | nil => rfl
    | cons g rest ih =>
        by_cases hv : (world g).valid = true
        · rw [generate_cons_valid world handler g rest hv, ih]
          simp [hv]
        · have hv' : (world g).valid = false := by
            simpa using hv
          rw [generate_cons_invalid_recover world handler g rest hv' hrec, ih]
          simp [hv']
  · intro hex hfail
    obtain ⟨f, hfm, hfv⟩ := hex
    induction regs with
    | nil => simp at hfm
    | cons g rest ih =>
        by_cases hv : (world g).valid = true
        · rw [generate_cons_valid world handler g rest hv]
          rcases List.mem_cons.mp hfm with rfl | hfm'
          · rw [hfv] at hv
            cases hv
          · exact ih hfm'
        · have hv' : (world g).valid = false := by
            simpa using hv
          rw [generate_cons_invalid_fail world handler g rest hv' hfail]

/-- Claim C10: `reportWriteConflicts` restores both of the realm's
interception hooks on every exit — the restoration sits in a `finally`
block, so it is reached also when the replayed evaluation throws — and a
`FatalError` raised inside the replayed candidate's evaluation is
swallowed by `ignoreErrorsIn` rather than propagated to the caller; the
conflicts the call leaves behind are exactly the installed hooks' work on
the delivered accesses. -/
theorem c10_hooks_restored_errors_suppressed (fname : String)
    (conflicts : List (Nat × CompilerDiagnostic)) (pbs : List Binding)
    (refuse : Binding → Bool) (hooks : RealmHooks) (installed : Nat × Nat)
    (run : ReplayRun) :
    (reportWriteConflictsRun fname conflicts pbs refuse hooks installed
      run).hooks = hooks ∧
    (run.thrown = some .fatalError →
      (reportWriteConflictsRun fname conflicts pbs refuse hooks installed
        run).escaped = none) ∧
    (reportWriteConflictsRun fname conflicts pbs refuse hooks installed
      run).conflicts =
      reportWriteConflicts fname conflicts pbs refuse run.events := by
  refine ⟨?_, ?_, rfl⟩
  · cases hooks
    rfl
  · intro h
    simp [reportWriteConflictsRun, ignoreErrorsIn, h]

end PrepackFunctions
